import Mathlib

/-!
Verification of the string-classification / deduplication / category-grouping
core of the StepzSync translation-report scripts
(`generate_excel.py` and `generate_excel_simple.py`).

Strings are modelled as lists of Unicode code points (`List Nat`); the Python
string methods used by the scripts (`str.lower`, `str.strip`, `str.isalpha`,
`str.isupper`, `c.isspace`, substring `in`, `str.count`) are given their ASCII
semantics, which is exact on every character these scripts compare against.
-/

/-- Code points of a string literal (the embedding of a Python string). -/
def sNat (x : String) : List Nat := x.toList.map Char.toNat

/-- ASCII model of Python `str.lower` on a single code point. -/
def pyCharLower (c : Nat) : Nat := if 65 ≤ c ∧ c ≤ 90 then c + 32 else c

/-- Python `str.lower`. -/
def pyLower (t : List Nat) : List Nat := t.map pyCharLower

/-- ASCII model of Python `c.isspace()` on one code point
(space, tab, newline, vertical tab, form feed, carriage return). -/
def pyIsSpaceChar (c : Nat) : Bool := c == 32 || (9 ≤ c && c ≤ 13)

/-- ASCII model of a single alphabetic code point (`A`-`Z`, `a`-`z`). -/
def pyIsAlphaChar (c : Nat) : Bool := (65 ≤ c && c ≤ 90) || (97 ≤ c && c ≤ 122)

/-- ASCII model of a single uppercase code point (`A`-`Z`). -/
def pyIsUpperChar (c : Nat) : Bool := 65 ≤ c && c ≤ 90

/-- Python `str.strip()`: remove leading and trailing whitespace. -/
def pyStrip (t : List Nat) : List Nat :=
  ((t.dropWhile pyIsSpaceChar).reverse.dropWhile pyIsSpaceChar).reverse

/-- Python `str.isalpha()`: nonempty and every character alphabetic. -/
def pyIsAlpha (t : List Nat) : Bool := !t.isEmpty && t.all pyIsAlphaChar

/-- Python `str.isupper()` (ASCII): at least one cased character and every
cased character uppercase. -/
def pyIsUpper (t : List Nat) : Bool :=
  t.any pyIsAlphaChar && t.all (fun c => !pyIsAlphaChar c || pyIsUpperChar c)

/-- Python substring test `needle in hay`. -/
def pyIn (needle : List Nat) : List Nat → Bool
  | [] => needle.isEmpty
  | c :: t => needle.isPrefixOf (c :: t) || pyIn needle t

/-- The block-list of `generate_excel.py` `_is_technical_string`
(lines 49-56). -/
def technical_keywords : List (List Nat) :=
  [sNat "widget", sNat "controller", sNat "service", sNat "model", sNat "provider",
   sNat "firebase", sNat "firestore", sNat "collection", sNat "document",
   sNat ".dart", sNat ".json", sNat "toString", sNat "override", sNat "async",
   sNat "await", sNat "class", sNat "extends", sNat "implements", sNat "void",
   sNat "String", sNat "int", sNat "bool", sNat "double", sNat "List", sNat "Map",
   sNat "setState", sNat "initState", sNat "dispose", sNat "build"]

/-- The block-list of `generate_excel_simple.py` `_is_technical_string`
(lines 47-55): the same tokens plus three widget-class names. -/
def technical_keywords_simple : List (List Nat) :=
  technical_keywords ++
  [sNat "BuildContext", sNat "StatefulWidget", sNat "StatelessWidget"]

/-- `generate_excel.py` lines 47-77, `_is_technical_string(text)`.
The keyword loop tests `keyword in lower_text` with the keyword NOT lowered;
then the camelCase rule (uppercase after the first character and no
whitespace), the multiple-underscore rule, and the short-non-alphabetic rule.
Python's early `return True` is the left-to-right disjunction below. -/
def _is_technical_string (text : List Nat) : Bool :=
  let lower_text := pyLower text
  technical_keywords.any (fun keyword => pyIn keyword lower_text) ||
  ((text.drop 1).any pyIsUpperChar && !(text.any pyIsSpaceChar)) ||
  decide (1 < text.count 95) ||
  (decide (text.length < 3) && !(pyIsAlpha text))

/-- `generate_excel_simple.py` lines 45-80, `_is_technical_string(text)`.
Differences from `generate_excel.py`: keywords are lowered before the
substring test (`keyword.lower() in lower_text`), the camelCase rule only
applies when `len(text) > 3`, and there is a final all-uppercase-short rule
(`text.isupper() and len(text) < 10`). -/
def _is_technical_string_simple (text : List Nat) : Bool :=
  let lower_text := pyLower text
  technical_keywords_simple.any (fun keyword => pyIn (pyLower keyword) lower_text) ||
  (decide (3 < text.length) && (text.drop 1).any pyIsUpperChar &&
    !(text.any pyIsSpaceChar)) ||
  decide (1 < text.count 95) ||
  (decide (text.length < 3) && !(pyIsAlpha text)) ||
  (pyIsUpper text && decide (text.length < 10))

/-- A record of `translation_strings.json` (the dicts with keys
`text`, `screenContext`, `category`, `notes`). -/
structure StringRecord where
  text : List Nat
  screenContext : List Nat
  category : List Nat
  notes : List Nat
deriving DecidableEq

/-- The deduplication key `(text.lower().strip(), category)`
(`generate_excel.py` line 34). -/
def dedupKey (r : StringRecord) : List Nat × List Nat :=
  (pyStrip (pyLower r.text), r.category)

/-- The in-place merge of `generate_excel.py` lines 39-43: `seen[key]` is the
unique earlier-kept record with the same key (the same object that sits in
`cleaned`, mutated through the alias), so we update the first record of the
output list whose key matches; its `screenContext` gets `"; " + screen`
appended unless `screen` already occurs in it as a substring. -/
def mergeContext : List StringRecord → StringRecord → List StringRecord
  | [], _ => []
  | e :: es, r =>
    if dedupKey e == dedupKey r then
      (if pyIn r.screenContext e.screenContext then e
       else { e with screenContext := e.screenContext ++ sNat "; " ++ r.screenContext }) :: es
    else e :: mergeContext es r

/-- The loop of `clean_and_deduplicate_strings` (`generate_excel.py`
lines 24-43), parameterised by the classifier in scope (`_is_technical_string`
of the respective file; the loop bodies of the two files are identical).
`cleaned` is the accumulator; a key is in the Python dict `seen` exactly when
some record of `cleaned` carries it, since both are extended together. -/
def dedupLoop (tech : List Nat → Bool) (cleaned : List StringRecord) :
    List StringRecord → List StringRecord
  | [] => cleaned
  | r :: rs =>
    if tech r.text then dedupLoop tech cleaned rs
    else if cleaned.any (fun e => dedupKey e == dedupKey r) then
      dedupLoop tech (mergeContext cleaned r) rs
    else dedupLoop tech (cleaned ++ [r]) rs

/-- `generate_excel.py` lines 19-45, `clean_and_deduplicate_strings`. -/
def clean_and_deduplicate_strings (strings_data : List StringRecord) : List StringRecord :=
  dedupLoop _is_technical_string [] strings_data

/-- `generate_excel_simple.py` lines 17-43, `clean_and_deduplicate_strings`
(same body, with that file's `_is_technical_string`). -/
def clean_and_deduplicate_strings_simple (strings_data : List StringRecord) : List StringRecord :=
  dedupLoop _is_technical_string_simple [] strings_data

/-- The fixed `category_order` list (`generate_excel.py` lines 83-96,
identical in `generate_excel_simple.py` lines 86-99). -/
def category_order : List (List Nat) :=
  [sNat "Authentication", sNat "Profile & Settings", sNat "Race Management",
   sNat "Active Races", sNat "Social Features", sNat "Leaderboard & Stats",
   sNat "Home & Navigation", sNat "Dialogs & Popups", sNat "Subscription/Premium",
   sNat "Errors & Validation", sNat "Admin Dashboard", sNat "Common/Shared"]

/-- A row of a category sheet: the dict
`{'English Text': ..., 'Screen/Context': ..., 'Notes': ...}`
(`generate_excel.py` lines 103-107). -/
structure SheetRow where
  english_text : List Nat
  screen_context : List Nat
  notes : List Nat
deriving DecidableEq

/-- `sheets_data[category].append(row)` on the bucket mapping, represented as
an association list: appends at the entry whose key equals `category`. -/
def appendRow (category : List Nat) (row : SheetRow) :
    List (List Nat × List SheetRow) → List (List Nat × List SheetRow)
  | [] => []
  | (c, rows) :: rest =>
    if c == category then (c, rows ++ [row]) :: rest
    else (c, rows) :: appendRow category row rest

/-- The loop of `organize_by_sheets` (`generate_excel.py` lines 101-107):
`sheets_data[category]` raises `KeyError(category)` when `category` is not a
key of the dict, which the embedding returns as `Except.error category`. -/
def organizeLoop (sheets_data : List (List Nat × List SheetRow)) :
    List StringRecord → Except (List Nat) (List (List Nat × List SheetRow))
  | [] => .ok sheets_data
  | r :: rs =>
    if sheets_data.any (fun p => p.1 == r.category) then
      organizeLoop (appendRow r.category ⟨r.text, r.screenContext, r.notes⟩ sheets_data) rs
    else .error r.category

/-- `generate_excel.py` lines 79-109, `organize_by_sheets` (identical in
`generate_excel_simple.py` lines 82-112): buckets are initialised for the
twelve fixed categories, then each record is appended to the bucket named by
its `category`; an unknown category raises `KeyError`. -/
def organize_by_sheets (strings_data : List StringRecord) :
    Except (List Nat) (List (List Nat × List SheetRow)) :=
  organizeLoop (category_order.map (fun c => (c, []))) strings_data

/-- Whether an `Except` value is a success (`dict` access without `KeyError`). -/
def exceptIsOk {ε α : Type} : Except ε α → Bool
  | .ok _ => true
  | .error _ => false

/-- The fields of a record other than `screenContext`:
`(text, category, notes)`. The dedup loop mutates only `screenContext`
(context merging), so these are the fields on which first-seen-wins order
statements are made. -/
def coreFields (r : StringRecord) : List Nat × List Nat × List Nat :=
  (r.text, r.category, r.notes)

/-- Specification device for claim C7: the subsequence of the input formed by
the first occurrence of each surviving deduplication key — records rejected by
the classifier are skipped, and a record is kept exactly when its key has not
been seen before. -/
def firstOccurrences (tech : List Nat → Bool)
    (seen : List (List Nat × List Nat)) : List StringRecord → List StringRecord
  | [] => []
  | r :: rs =>
    if tech r.text then firstOccurrences tech seen rs
    else if seen.any (fun k => k == dedupKey r) then firstOccurrences tech seen rs
    else r :: firstOccurrences tech (seen ++ [dedupKey r]) rs

/-- Formalisation of the claim-side phrase "purely alphabetic sentence
containing at least one space": every character is a letter or a space
character, and at least one character is the space `' '`. -/
def alphaSpaceSentence (t : List Nat) : Bool :=
  t.all (fun c => pyIsAlphaChar c || pyIsSpaceChar c) && t.any (fun c => c == 32)

theorem mergeContext_map_coreFields (r : StringRecord) :
    ∀ l : List StringRecord, (mergeContext l r).map coreFields = l.map coreFields := by
  intro l
  induction l with
  | nil => rfl
  | cons e es ih =>
    simp only [mergeContext]
    cases hk : dedupKey e == dedupKey r
    · simp [hk, ih]
    · simp only [hk, if_true]
      cases hin : pyIn r.screenContext e.screenContext
      · simp [hin, coreFields]
      · simp [hin, coreFields]

theorem mergeContext_map_dedupKey (r : StringRecord) :
    ∀ l : List StringRecord, (mergeContext l r).map dedupKey = l.map dedupKey := by
  intro l
  induction l with
  | nil => rfl
  | cons e es ih =>
    simp only [mergeContext]
    cases hk : dedupKey e == dedupKey r
    · simp [hk, ih]
    · simp only [hk, if_true]
      cases hin : pyIn r.screenContext e.screenContext
      · simp [hin, dedupKey]
      · simp [hin, dedupKey]

theorem any_map_comp {α β : Type} (f : α → β) (p : β → Bool) :
    ∀ l : List α, (l.map f).any p = l.any fun a => p (f a) := by
  intro l
  induction l with
  | nil => rfl
  | cons a l ih => simp [ih]

theorem any_key_iff_mem (cleaned : List StringRecord) (k : List Nat × List Nat) :
    (cleaned.any fun e => dedupKey e == k) = true ↔ k ∈ cleaned.map dedupKey := by
  rw [List.any_eq_true]
  constructor
  · rintro ⟨e, he, hk⟩
    exact List.mem_map.mpr ⟨e, he, by simpa [beq_iff_eq] using hk⟩
  · intro hm
    rcases List.mem_map.mp hm with ⟨e, he, hk⟩
    exact ⟨e, he, by simp [beq_iff_eq, hk]⟩

theorem dedupLoop_map_coreFields (tech : List Nat → Bool) :
    ∀ (rs cleaned : List StringRecord),
    (dedupLoop tech cleaned rs).map coreFields =
      cleaned.map coreFields ++
        (firstOccurrences tech (cleaned.map dedupKey) rs).map coreFields := by
  intro rs
  induction rs with
  | nil => intro cleaned; simp [dedupLoop, firstOccurrences]
  | cons r rs ih =>
    intro cleaned
    have hcond : ((cleaned.map dedupKey).any fun k => k == dedupKey r) =
        (cleaned.any fun e => dedupKey e == dedupKey r) := by
      exact any_map_comp dedupKey (fun k => k == dedupKey r) cleaned
    simp only [dedupLoop, firstOccurrences, hcond]
    cases ht : tech r.text
    · cases ha : cleaned.any fun e => dedupKey e == dedupKey r
      · simp only [ht, ha, Bool.false_eq_true, if_false]
        rw [ih (cleaned ++ [r])]
        simp [List.map_append, List.append_assoc]
      · simp only [ht, ha, Bool.false_eq_true, if_false, if_true]
        rw [ih (mergeContext cleaned r), mergeContext_map_coreFields,
          mergeContext_map_dedupKey]
    · simp [ht, ih cleaned]

theorem firstOccurrences_sublist (tech : List Nat → Bool) :
    ∀ (rs : List StringRecord) (seen : List (List Nat × List Nat)),
    (firstOccurrences tech seen rs).Sublist rs := by
  intro rs
  induction rs with
  | nil => intro seen; simp [firstOccurrences]
  | cons r rs ih =>
    intro seen
    simp only [firstOccurrences]
    cases ht : tech r.text
    · cases ha : seen.any fun k => k == dedupKey r
      · simp only [ht, ha, Bool.false_eq_true, if_false]
        exact List.Sublist.cons₂ r (ih (seen ++ [dedupKey r]))
      · simp only [ht, ha, Bool.false_eq_true, if_false, if_true]
        exact List.Sublist.cons r (ih seen)
    · simp only [ht, if_true]
      exact List.Sublist.cons r (ih seen)

theorem firstOccurrences_all_pass (tech : List Nat → Bool) :
    ∀ (rs : List StringRecord) (seen : List (List Nat × List Nat)),
    ((firstOccurrences tech seen rs).all fun e => !tech e.text) = true := by
  intro rs
  induction rs with
  | nil => intro seen; simp [firstOccurrences]
  | cons r rs ih =>
    intro seen
    simp only [firstOccurrences]
    cases ht : tech r.text
    · cases ha : seen.any fun k => k == dedupKey r
      · simp only [ht, ha, Bool.false_eq_true, if_false, List.all_cons]
        simp [ht, ih (seen ++ [dedupKey r])]
      · simp only [ht, ha, Bool.false_eq_true, if_false, if_true]
        exact ih seen
    · simp only [ht, if_true]
      exact ih seen

theorem dedupLoop_nodup_keys (tech : List Nat → Bool) :
    ∀ (rs cleaned : List StringRecord),
    (cleaned.map dedupKey).Nodup → ((dedupLoop tech cleaned rs).map dedupKey).Nodup := by
  intro rs
  induction rs with
  | nil => intro cleaned h; simpa [dedupLoop] using h
  | cons r rs ih =>
    intro cleaned h
    simp only [dedupLoop]
    cases ht : tech r.text
    · cases ha : cleaned.any fun e => dedupKey e == dedupKey r
      · simp only [ht, ha, Bool.false_eq_true, if_false]
        apply ih (cleaned ++ [r])
        have hnm : dedupKey r ∉ cleaned.map dedupKey := by
          intro hm
          rw [← any_key_iff_mem] at hm
          rw [hm] at ha
          exact Bool.true_eq_false.mp ha
        simp [List.map_append, List.nodup_append, h, hnm, List.disjoint_singleton]
      · simp only [ht, ha, Bool.false_eq_true, if_false, if_true]
        apply ih (mergeContext cleaned r)
        rwa [mergeContext_map_dedupKey]
    · simp only [ht, if_true]
      exact ih cleaned h

theorem dedupLoop_stable (tech : List Nat → Bool) :
    ∀ (rs cleaned : List StringRecord),
    ((cleaned ++ rs).map dedupKey).Nodup →
    (∀ r ∈ rs, tech r.text = false) →
    dedupLoop tech cleaned rs = cleaned ++ rs := by
  intro rs
  induction rs with
  | nil => intro cleaned _ _; simp [dedupLoop]
  | cons r rs ih =>
    intro cleaned hnd hall
    have ht : tech r.text = false := hall r (List.mem_cons_self r rs)
    have hnm : dedupKey r ∉ cleaned.map dedupKey := by
      intro hm
      rw [List.map_append, List.nodup_append] at hnd
      exact hnd.2.2 hm (by simp)
    have ha : (cleaned.any fun e => dedupKey e == dedupKey r) = false := by
      cases hx : cleaned.any fun e => dedupKey e == dedupKey r
      · rfl
      · exact absurd ((any_key_iff_mem cleaned (dedupKey r)).mp hx) hnm
    simp only [dedupLoop, ht, ha, Bool.false_eq_true, if_false]
    have := ih (cleaned ++ [r])
      (by simpa [List.append_assoc] using hnd)
      (fun e he => hall e (List.mem_cons_of_mem r he))
    rw [this]
    simp [List.append_assoc]

theorem dedupLoop_all_not_tech (tech : List Nat → Bool) (sd : List StringRecord) :
    ∀ r ∈ dedupLoop tech [] sd, tech r.text = false := by
  intro r hr
  have hchar := dedupLoop_map_coreFields tech sd []
  have hmem : coreFields r ∈ (dedupLoop tech [] sd).map coreFields :=
    List.mem_map_of_mem coreFields hr
  rw [hchar] at hmem
  simp only [List.map_nil, List.nil_append] at hmem
  rcases List.mem_map.mp hmem with ⟨e, he, hce⟩
  have hall := firstOccurrences_all_pass tech sd []
  rw [List.all_eq_true] at hall
  have hee : (!tech e.text) = true := hall e he
  have htext : e.text = r.text := congrArg (fun p => p.1) hce
  rw [← htext]
  simpa using hee

theorem appendRow_map_fst (c : List Nat) (row : SheetRow) :
    ∀ sd : List (List Nat × List SheetRow),
    (appendRow c row sd).map Prod.fst = sd.map Prod.fst := by
  intro sd
  induction sd with
  | nil => rfl
  | cons p rest ih =>
    obtain ⟨k, rows⟩ := p
    simp only [appendRow]
    cases hk : k == c
    · simp [hk, ih]
    · simp [hk]

theorem organizeLoop_ne_ok :
    ∀ (rs : List StringRecord) (sd : List (List Nat × List SheetRow)),
    (∃ r ∈ rs, ((sd.map Prod.fst).any fun k => k == r.category) = false) →
    ∀ m, organizeLoop sd rs ≠ Except.ok m := by
  intro rs
  induction rs with
  | nil =>
    intro sd h m
    obtain ⟨r, hr, _⟩ := h
    exact absurd hr (List.not_mem_nil r)
  | cons r rs ih =>
    intro sd h m
    obtain ⟨w, hw, hwf⟩ := h
    simp only [organizeLoop]
    cases ha : sd.any fun p => p.1 == r.category
    · simp [ha]
    · simp only [ha, if_true]
      rcases List.mem_cons.mp hw with hww | hww
      · subst hww
        rw [any_map_comp Prod.fst (fun k => k == w.category) sd] at hwf
        rw [hwf] at ha
        exact absurd ha (by simp)
      · apply ih
        refine ⟨w, hww, ?_⟩
        rwa [appendRow_map_fst]

theorem pyCharLower_pyCharLower (c : Nat) :
    pyCharLower (pyCharLower c) = pyCharLower c := by
  simp only [pyCharLower]
  split_ifs <;> omega

theorem pyLower_pyLower (t : List Nat) : pyLower (pyLower t) = pyLower t := by
  simp only [pyLower, List.map_map]
  apply List.map_congr_left
  intro c _
  exact pyCharLower_pyCharLower c

theorem isPrefixOf_map (f : Nat → Nat) :
    ∀ n h : List Nat, n.isPrefixOf h = true → (n.map f).isPrefixOf (h.map f) = true := by
  intro n
  induction n with
  | nil => intro h _; simp [List.isPrefixOf]
  | cons a as ih =>
    intro h hp
    cases h with
    | nil => simp [List.isPrefixOf] at hp
    | cons b bs =>
      simp only [List.isPrefixOf, Bool.and_eq_true, beq_iff_eq] at hp
      simp only [List.map_cons, List.isPrefixOf, Bool.and_eq_true, beq_iff_eq]
      exact ⟨congrArg f hp.1, ih bs hp.2⟩

theorem pyIn_map (f : Nat → Nat) :
    ∀ (h n : List Nat), pyIn n h = true → pyIn (n.map f) (h.map f) = true := by
  intro h
  induction h with
  | nil =>
    intro n hn
    simp only [pyIn] at hn ⊢
    simp only [List.isEmpty_iff] at hn
    simp [hn]
  | cons c t ih =>
    intro n hn
    simp only [pyIn, Bool.or_eq_true] at hn
    rcases hn with hn | hn
    · simp only [List.map_cons, pyIn, Bool.or_eq_true]
      exact Or.inl (by simpa using isPrefixOf_map f n (c :: t) hn)
    · simp only [List.map_cons, pyIn, Bool.or_eq_true]
      exact Or.inr (ih n hn)

theorem keywords_none_of_lowered (t : List Nat)
    (h : ∀ k ∈ technical_keywords_simple, pyIn (pyLower k) (pyLower t) = false) :
    (technical_keywords.any fun keyword => pyIn keyword (pyLower t)) = false := by
  cases hx : technical_keywords.any fun keyword => pyIn keyword (pyLower t)
  · rfl
  · exfalso
    rcases List.any_eq_true.mp hx with ⟨k, hk, hp⟩
    have h2 : pyIn (k.map pyCharLower) ((pyLower t).map pyCharLower) = true :=
      pyIn_map pyCharLower (pyLower t) k hp
    have h3 : pyIn (pyLower k) (pyLower t) = true := by
      have hll := pyLower_pyLower t
      simp only [pyLower] at hll h2 ⊢
      rwa [hll] at h2
    have h4 : k ∈ technical_keywords_simple := by
      rw [technical_keywords_simple]
      exact List.mem_append_left _ hk
    rw [h k h4] at h3
    exact absurd h3 (by simp)

theorem keywords_simple_none_of_lowered (t : List Nat)
    (h : ∀ k ∈ technical_keywords_simple, pyIn (pyLower k) (pyLower t) = false) :
    (technical_keywords_simple.any fun keyword => pyIn (pyLower keyword) (pyLower t)) = false := by
  cases hx : technical_keywords_simple.any fun keyword => pyIn (pyLower keyword) (pyLower t)
  · rfl
  · exfalso
    rcases List.any_eq_true.mp hx with ⟨k, hk, hp⟩
    rw [h k hk] at hp
    exact absurd hp (by simp)

theorem count95_eq_zero {t : List Nat} (h : ∀ c ∈ t, c ≠ 95) : t.count 95 = 0 := by
  rw [List.count_eq_zero]
  intro hm
  exact h 95 hm rfl

theorem dedupLoop_idempotent (tech : List Nat → Bool) (sd : List StringRecord) :
    dedupLoop tech [] (dedupLoop tech [] sd) = dedupLoop tech [] sd := by
  have hn : ((dedupLoop tech [] sd).map dedupKey).Nodup :=
    dedupLoop_nodup_keys tech sd [] (by simp)
  have hs := dedupLoop_stable tech (dedupLoop tech [] sd) []
    (by simpa using hn) (dedupLoop_all_not_tech tech sd)
  simpa using hs

theorem dedupLoop_order (tech : List Nat → Bool) (sd : List StringRecord) :
    (dedupLoop tech [] sd).map coreFields =
      (firstOccurrences tech [] sd).map coreFields ∧
    ((dedupLoop tech [] sd).map coreFields).Sublist (sd.map coreFields) := by
  have h := dedupLoop_map_coreFields tech sd []
  simp only [List.map_nil, List.nil_append] at h
  refine ⟨h, ?_⟩
  rw [h]
  exact List.Sublist.map coreFields (firstOccurrences_sublist tech sd [])

theorem dedupLoop_text_ne_empty (tech : List Nat → Bool) (htech : tech [] = true)
    (sd : List StringRecord) :
    ((dedupLoop tech [] sd).all fun r => !r.text.isEmpty) = true := by
  rw [List.all_eq_true]
  intro r hr
  have hne := dedupLoop_all_not_tech tech sd r hr
  cases hx : r.text with
  | nil =>
    rw [hx, htech] at hne
    exact absurd hne (by simp)
  | cons a l => simp [hx]

/-- C1 (amended): when some input record's `category` is not among the twelve
fixed categories, `organize_by_sheets` does NOT complete normally: the
`sheets_data[category]` access raises `KeyError`, so the grouping step aborts
with an error and produces no output mapping at all. -/
theorem claim_C1 (sd : List StringRecord)
    (h : ∃ r ∈ sd, r.category ∉ category_order) :
    exceptIsOk (organize_by_sheets sd) = false := by
  obtain ⟨r, hr, hc⟩ := h
  have hany : (((category_order.map fun c => (c, ([] : List SheetRow))).map Prod.fst).any
      fun k => k == r.category) = false := by
    cases hx : ((category_order.map fun c => (c, ([] : List SheetRow))).map Prod.fst).any
        fun k => k == r.category
    · rfl
    · exfalso
      rcases List.any_eq_true.mp hx with ⟨k, hk, hke⟩
      rw [List.map_map] at hk
      have hmem : k ∈ category_order := by simpa [Function.comp] using hk
      exact hc (by rwa [beq_iff_eq.mp hke] at hmem)
  have hne := organizeLoop_ne_ok sd (category_order.map fun c => (c, []))
    ⟨r, hr, hany⟩
  unfold organize_by_sheets
  cases hx : organizeLoop (category_order.map fun c => (c, [])) sd with
  | error e => rfl
  | ok m => exact absurd hx (hne m)

/-- Witness for C1 at a one-record input whose category `"Bogus"` is unknown. -/
theorem claim_C1_witness :
    (∃ r ∈ [(⟨sNat "Hello", sNat "X", sNat "Bogus", []⟩ : StringRecord)],
      r.category ∉ category_order) ∧
    exceptIsOk (organize_by_sheets
      [(⟨sNat "Hello", sNat "X", sNat "Bogus", []⟩ : StringRecord)]) = false :=
  ⟨by decide, claim_C1 _ (by decide)⟩

/-- Counterexample to C1 as stated: on a record with category `"Bogus"`,
the grouping step does not complete normally with the record absent — it
returns the `KeyError` carrying `"Bogus"`. -/
theorem claim_C1_counterexample :
    organize_by_sheets [(⟨sNat "Hello", sNat "X", sNat "Bogus", []⟩ : StringRecord)] =
      Except.error (sNat "Bogus") := by rfl

/-- C2: the block-list contains `'toString'` and the text `"tostring"` contains
it as a case-insensitive substring, yet `generate_excel.py`'s
`_is_technical_string` accepts `"tostring"` (the mixed-case keyword is compared
un-lowered against the lowered text and can never match) — contradicting the
claim; `generate_excel_simple.py`'s variant lowers the keyword and rejects it,
and both variants do reject `"firebase_user_id"` as the claim states. -/
theorem claim_C2 :
    technical_keywords.contains (sNat "toString") = true ∧
    pyIn (pyLower (sNat "toString")) (pyLower (sNat "tostring")) = true ∧
    _is_technical_string (sNat "tostring") = false ∧
    _is_technical_string_simple (sNat "tostring") = true ∧
    _is_technical_string (sNat "firebase_user_id") = true ∧
    _is_technical_string_simple (sNat "firebase_user_id") = true := by decide

/-- C3: in the output of `clean_and_deduplicate_strings` (either variant) no
two records share the same `(text.lower().strip(), category)` key. -/
theorem claim_C3 (sd : List StringRecord) :
    ((clean_and_deduplicate_strings sd).map dedupKey).Nodup ∧
    ((clean_and_deduplicate_strings_simple sd).map dedupKey).Nodup :=
  ⟨dedupLoop_nodup_keys _is_technical_string sd [] (by simp),
   dedupLoop_nodup_keys _is_technical_string_simple sd [] (by simp)⟩

/-- C4: on the two `Login`/`login` records of the claim,
`clean_and_deduplicate_strings` returns exactly one record keeping the
first-seen text `"Login"` and notes, with the second screen context appended
as `"LoginScreen; SplashScreen"`. -/
theorem claim_C4 :
    clean_and_deduplicate_strings
      [⟨sNat "Login", sNat "LoginScreen", sNat "Authentication", sNat ""⟩,
       ⟨sNat "login", sNat "SplashScreen", sNat "Authentication", sNat ""⟩] =
    [⟨sNat "Login", sNat "LoginScreen; SplashScreen", sNat "Authentication",
      sNat ""⟩] := by decide

/-- C5: `clean_and_deduplicate_strings` (either variant) is idempotent —
running it on its own output returns that output unchanged. -/
theorem claim_C5 (sd : List StringRecord) :
    clean_and_deduplicate_strings (clean_and_deduplicate_strings sd) =
      clean_and_deduplicate_strings sd ∧
    clean_and_deduplicate_strings_simple (clean_and_deduplicate_strings_simple sd) =
      clean_and_deduplicate_strings_simple sd :=
  ⟨dedupLoop_idempotent _is_technical_string sd,
   dedupLoop_idempotent _is_technical_string_simple sd⟩

/-- C7: the output of `clean_and_deduplicate_strings` (either variant),
compared on the fields the loop never mutates (`text`, `category`, `notes`), is
exactly the subsequence of the input formed by the first occurrence of each
surviving key, in input order — and in particular a sublist of the input. -/
theorem claim_C7 (sd : List StringRecord) :
    ((clean_and_deduplicate_strings sd).map coreFields =
        (firstOccurrences _is_technical_string [] sd).map coreFields ∧
      ((clean_and_deduplicate_strings sd).map coreFields).Sublist
        (sd.map coreFields)) ∧
    ((clean_and_deduplicate_strings_simple sd).map coreFields =
        (firstOccurrences _is_technical_string_simple [] sd).map coreFields ∧
      ((clean_and_deduplicate_strings_simple sd).map coreFields).Sublist
        (sd.map coreFields)) :=
  ⟨dedupLoop_order _is_technical_string sd,
   dedupLoop_order _is_technical_string_simple sd⟩

/-- C10: both classifiers reject the empty string (length 0 is below 3 and
`"".isalpha()` is false), so `clean_and_deduplicate_strings` (either variant)
drops every record whose text is empty: all output texts are nonempty. -/
theorem claim_C10 :
    _is_technical_string [] = true ∧ _is_technical_string_simple [] = true ∧
    ∀ sd : List StringRecord,
      ((clean_and_deduplicate_strings sd).all fun r => !r.text.isEmpty) = true ∧
      ((clean_and_deduplicate_strings_simple sd).all fun r => !r.text.isEmpty) = true :=
  ⟨by decide, by decide, fun sd =>
    ⟨dedupLoop_text_ne_empty _is_technical_string (by decide) sd,
     dedupLoop_text_ne_empty _is_technical_string_simple (by decide) sd⟩⟩

/-- C6 (amended): a text made only of letters and spaces, containing at least
one space, of length at least 3, containing no block-list token as a
case-insensitive substring, and not both entirely uppercase and shorter than
10 characters, is accepted by the `_is_technical_string` of both files. -/
theorem claim_C6 (t : List Nat)
    (hs : alphaSpaceSentence t = true)
    (hlen : 3 ≤ t.length)
    (hkw : ∀ k ∈ technical_keywords_simple, pyIn (pyLower k) (pyLower t) = false)
    (hup : (pyIsUpper t && decide (t.length < 10)) = false) :
    _is_technical_string t = false ∧ _is_technical_string_simple t = false := by
  simp only [alphaSpaceSentence, Bool.and_eq_true] at hs
  obtain ⟨hall, hany⟩ := hs
  have hsp : (t.any pyIsSpaceChar) = true := by
    rcases List.any_eq_true.mp hany with ⟨c, hc, hc32⟩
    have hc32' : c = 32 := beq_iff_eq.mp hc32
    exact List.any_eq_true.mpr ⟨c, hc, by rw [hc32']; decide⟩
  have hund : t.count 95 = 0 := by
    apply count95_eq_zero
    intro c hc hc95
    have := List.all_eq_true.mp hall c hc
    rw [hc95] at this
    exact absurd this (by decide)
  have h3 : decide (t.length < 3) = false := by
    simp only [decide_eq_false_iff_not]
    omega
  constructor
  · simp only [_is_technical_string]
    rw [keywords_none_of_lowered t hkw]
    simp [hsp, hund, h3]
  · simp only [_is_technical_string_simple]
    rw [keywords_simple_none_of_lowered t hkw]
    simp [hsp, hund, h3, hup]

/-- Witness for C6 at the claim's own example `"Welcome Back"`. -/
theorem claim_C6_witness :
    alphaSpaceSentence (sNat "Welcome Back") = true ∧
    3 ≤ (sNat "Welcome Back").length ∧
    _is_technical_string (sNat "Welcome Back") = false ∧
    _is_technical_string_simple (sNat "Welcome Back") = false := by
  refine ⟨by decide, by decide, ?_, ?_⟩
  · exact (claim_C6 (sNat "Welcome Back") (by decide) (by decide) (by decide)
      (by decide)).1
  · exact (claim_C6 (sNat "Welcome Back") (by decide) (by decide) (by decide)
      (by decide)).2

/-- Counterexamples to C6 as stated: the purely alphabetic sentences
`"class act"` (contains the block-list token `class`), `" a"` (shorter than 3
characters) and `"OK GO"` (all-uppercase, shorter than 10, simple variant)
each contain a space, yet are rejected. -/
theorem claim_C6_counterexample :
    (alphaSpaceSentence (sNat "class act") = true ∧
      _is_technical_string (sNat "class act") = true ∧
      _is_technical_string_simple (sNat "class act") = true) ∧
    (alphaSpaceSentence (sNat " a") = true ∧
      _is_technical_string (sNat " a") = true ∧
      _is_technical_string_simple (sNat " a") = true) ∧
    (alphaSpaceSentence (sNat "OK GO") = true ∧
      _is_technical_string_simple (sNat "OK GO") = true) := by decide

/-- C8 (amended): in `generate_excel_simple.py` every entirely-uppercase text
shorter than 10 characters is rejected (its final constant-rule fires, or an
earlier rule already did); `generate_excel.py` has no such rule, yet it also
rejects the claim's example `"OK"` (camel-case rule: uppercase after the first
character, no whitespace). -/
theorem claim_C8 :
    (∀ t : List Nat, pyIsUpper t = true → t.length < 10 →
      _is_technical_string_simple t = true) ∧
    _is_technical_string (sNat "OK") = true ∧
    _is_technical_string_simple (sNat "OK") = true := by
  refine ⟨?_, by decide, by decide⟩
  intro t hu hl
  have hd : decide (t.length < 10) = true := decide_eq_true hl
  simp only [_is_technical_string_simple]
  simp [hu, hd]

/-- Witness for C8 at the claim's own example `"OK"`. -/
theorem claim_C8_witness :
    pyIsUpper (sNat "OK") = true ∧ (sNat "OK").length < 10 ∧
    _is_technical_string_simple (sNat "OK") = true :=
  ⟨by decide, by decide, claim_C8.1 (sNat "OK") (by decide) (by decide)⟩

/-- Counterexample to C8 as stated: `"I AM SAM"` is entirely uppercase and
8 characters long, yet `generate_excel.py`'s `_is_technical_string` accepts it
(that file has no all-uppercase rule). -/
theorem claim_C8_counterexample :
    pyIsUpper (sNat "I AM SAM") = true ∧ (sNat "I AM SAM").length < 10 ∧
    _is_technical_string (sNat "I AM SAM") = false := by decide

/-- C9 (amended): the length-greater-than-3 guard on the camel-case rule is
present only in `generate_excel_simple.py`: its classifier accepts every
purely alphabetic text of length at most 3 that is not entirely uppercase and
contains no block-list token; `generate_excel.py`'s camel-case rule has no
length guard and rejects such texts, e.g. `"aB"`. -/
theorem claim_C9 :
    (∀ t : List Nat, t.length ≤ 3 → pyIsAlpha t = true → pyIsUpper t = false →
      (∀ k ∈ technical_keywords_simple, pyIn (pyLower k) (pyLower t) = false) →
      _is_technical_string_simple t = false) ∧
    _is_technical_string (sNat "aB") = true := by
  refine ⟨?_, by decide⟩
  intro t hlen halpha hup hkw
  have hall : t.all pyIsAlphaChar = true := by
    have h := halpha
    simp only [pyIsAlpha, Bool.and_eq_true] at h
    exact h.2
  have hund : t.count 95 = 0 := by
    apply count95_eq_zero
    intro c hc hc95
    have := List.all_eq_true.mp hall c hc
    rw [hc95] at this
    exact absurd this (by decide)
  have h4 : decide (3 < t.length) = false := by
    simp only [decide_eq_false_iff_not]
    omega
  simp only [_is_technical_string_simple]
  rw [keywords_simple_none_of_lowered t hkw]
  simp [h4, hund, halpha, hup]

/-- Witness for C9 at the claim's own example `"aB"`, accepted by the
`generate_excel_simple.py` classifier. -/
theorem claim_C9_witness :
    (sNat "aB").length ≤ 3 ∧ pyIsAlpha (sNat "aB") = true ∧
    pyIsUpper (sNat "aB") = false ∧
    _is_technical_string_simple (sNat "aB") = false :=
  ⟨by decide, by decide, by decide,
   claim_C9.1 (sNat "aB") (by decide) (by decide) (by decide) (by decide)⟩

/-- Counterexample to C9 as stated: `"aB"` has length at most 3, is purely
alphabetic, not entirely uppercase and matches no block-list token, yet
`generate_excel.py`'s `_is_technical_string` rejects it — its camel-case rule
has no length guard. -/
theorem claim_C9_counterexample :
    (sNat "aB").length ≤ 3 ∧ pyIsAlpha (sNat "aB") = true ∧
    pyIsUpper (sNat "aB") = false ∧
    (∀ k ∈ technical_keywords_simple, pyIn (pyLower k) (pyLower (sNat "aB")) = false) ∧
    _is_technical_string (sNat "aB") = true := by decide
